import Mathlib

/-!
Verification development for a preprint-aggregation pipeline (`src/main.py`).

The program fetches two syndication feeds (an arXiv RSS endpoint and a
bioRxiv endpoint), filters entries to those whose timestamp parses to the
requested target date, normalizes them into records, concatenates and sorts
the records by date, runs a "remove duplicants" step built on a Python
`set` of `(index, title)` pairs, and renders the result as HTML.

The embedding below models:
  - calendar dates and `datetime.strptime(s, "%Y-%m-%d")` parsing at the
    character level (`parseYMDChars`), including month/day range and
    leap-year validation, matching CPython's strptime behaviour on the
    `%Y-%m-%d` format;
  - feed entries and the two fetchers `fetch_arxiv_preprints` /
    `fetch_biorxiv_preprints`, with the network modelled as a function
    `feedOf : String → List Entry` from a request URL to the parsed feed;
    each fetcher returns the list of URLs it actually requested together
    with `some papers` on success, or `none` where the Python code would
    raise (an unparseable target date or entry timestamp);
  - the renderer `generate_html`, with dictionary access by content key
    returning `none` where Python would raise `KeyError`;
  - the aggregation stage of `main`: `List.insertionSort` stands in for
    Python's stable `list.sort(key=...)`, and the set-based duplicate
    removal is modelled with an explicit enumeration order, because a
    CPython `set` iterates its elements in an unspecified, per-process
    salted order (string hashing is randomized); the order is constrained
    to enumerate exactly the distinct `(index, title)` keys.
-/

/-- A calendar date, as produced by `datetime.date`. -/
structure Date where
  year : Nat
  month : Nat
  day : Nat
deriving DecidableEq, Repr, Inhabited

/-- Python `date` comparison is lexicographic on (year, month, day). -/
def dateLe (a b : Date) : Prop :=
  a.year < b.year ∨
    (a.year = b.year ∧
      (a.month < b.month ∨ (a.month = b.month ∧ a.day ≤ b.day)))

instance : DecidableRel dateLe := fun a b => by
  unfold dateLe; infer_instance

/-- Python `str.split(sep)` for a single-character separator: splits at every
occurrence, keeping empty pieces, so the result is always nonempty. -/
def splitOnChar (c : Char) : List Char → List (List Char)
  | [] => [[]]
  | x :: xs =>
    let r := splitOnChar c xs
    if x = c then [] :: r
    else (x :: r.headD []) :: r.tail

/-- Decimal value of a digit string, as read by `strptime`. -/
def natOfDigits (l : List Char) : Nat :=
  l.foldl (fun acc c => acc * 10 + (c.toNat - '0'.toNat)) 0

/-- Gregorian leap-year rule used by `datetime`. -/
def isLeapYear (y : Nat) : Prop :=
  y % 4 = 0 ∧ (y % 100 ≠ 0 ∨ y % 400 = 0)

instance (y : Nat) : Decidable (isLeapYear y) := by
  unfold isLeapYear; infer_instance

/-- Number of days in a month, as validated by the `datetime` constructor. -/
def daysInMonth (y m : Nat) : Nat :=
  if m = 2 then (if isLeapYear y then 29 else 28)
  else if m = 4 ∨ m = 6 ∨ m = 9 ∨ m = 11 then 30
  else 31

/-- Model of `datetime.datetime.strptime(s, "%Y-%m-%d").date()` on the list
of characters of `s`: three dash-separated fields, a four-digit year, a one-
or two-digit month and day, full consumption of the input, and the
`datetime` range checks (year at least 1, month 1..12, day valid for the
month). Returns `none` where CPython raises `ValueError`. -/
def parseYMDChars (l : List Char) : Option Date :=
  match splitOnChar '-' l with
  | [ys, ms, ds] =>
    if ys.length = 4 ∧ ys.all Char.isDigit
        ∧ 1 ≤ ms.length ∧ ms.length ≤ 2 ∧ ms.all Char.isDigit
        ∧ 1 ≤ ds.length ∧ ds.length ≤ 2 ∧ ds.all Char.isDigit then
      let y := natOfDigits ys
      let m := natOfDigits ms
      let d := natOfDigits ds
      if 1 ≤ y ∧ 1 ≤ m ∧ m ≤ 12 ∧ 1 ≤ d ∧ d ≤ daysInMonth y m then
        some ⟨y, m, d⟩
      else none
    else none
  | _ => none

/-- String-level wrapper for `parseYMDChars`. -/
def parseDate (s : String) : Option Date :=
  parseYMDChars s.data

/-- Date extraction used by the arXiv fetcher:
`entry.updated.__str__().split("T")[0]` parsed as `%Y-%m-%d`. -/
def entryDateArxiv (updated : String) : Option Date :=
  parseYMDChars ((splitOnChar 'T' updated.data).headD [])

/-- Date extraction used by the bioRxiv fetcher: the whole of
`entry.updated.__str__()` parsed as `%Y-%m-%d`, with no splitting. -/
def entryDateBiorxiv (updated : String) : Option Date :=
  parseYMDChars updated.data

/-- Whitespace characters stripped by Python `str.strip()` (the ASCII ones). -/
def isPySpace (c : Char) : Prop :=
  c = ' ' ∨ c = '\t' ∨ c = '\n' ∨ c = '\r' ∨ c = '\x0b' ∨ c = '\x0c'

instance (c : Char) : Decidable (isPySpace c) := by
  unfold isPySpace; infer_instance

/-- Python `str.strip()`: remove leading and trailing whitespace. -/
def pyStrip (s : String) : String :=
  ⟨((s.data.dropWhile (fun c => decide (isPySpace c))).reverse.dropWhile
      (fun c => decide (isPySpace c))).reverse⟩

/-- Python `sep.join(parts)`. -/
def pyJoin (sep : String) : List String → String
  | [] => ""
  | [s] => s
  | s :: rest => s ++ sep ++ pyJoin sep rest

/-- One entry of a parsed syndication feed, with the fields `main.py`
reads: `title`, `link`, `summary`, the author names, and `updated`. -/
structure Entry where
  title : String
  link : String
  summary : String
  authors : List String
  updated : String
deriving DecidableEq, Repr, Inhabited

/-- The normalized preprint record built by both fetchers. -/
structure Record where
  title : String
  category : String
  authors : String
  datetime : Date
  abstract : String
  url : String
deriving DecidableEq, Repr, Inhabited

/-- Record built by `fetch_arxiv_preprints` for a kept entry (lines 50-63 of
`main.py`): title stripped, authors comma-joined, `datetime` set to the
parsed target date, abstract taken as-is. -/
def mkArxivRecord (category : String) (target_date : Date) (e : Entry) : Record :=
  { title := pyStrip e.title
    category := category
    authors := pyJoin ", " e.authors
    datetime := target_date
    abstract := e.summary
    url := e.link }

/-- Record built by `fetch_biorxiv_preprints` for a kept entry (lines 90-102
of `main.py`): as for arXiv except the abstract is also stripped. -/
def mkBiorxivRecord (category : String) (target_date : Date) (e : Entry) : Record :=
  { title := pyStrip e.title
    category := category
    authors := pyJoin ", " e.authors
    datetime := target_date
    abstract := pyStrip e.summary
    url := e.link }

/-- The entry loop of `fetch_arxiv_preprints` (lines 44-63): parse each
entry's timestamp (splitting at "T"); keep the entry exactly when the parsed
date equals the target date. An unparseable timestamp raises in Python, so
the whole loop yields `none`. -/
def arxivPapers (category : String) (target_date : Date) : List Entry → Option (List Record)
  | [] => some []
  | e :: es =>
    match entryDateArxiv e.updated with
    | none => none
    | some d =>
      match arxivPapers category target_date es with
      | none => none
      | some rest =>
        if d = target_date then some (mkArxivRecord category target_date e :: rest)
        else some rest

/-- The entry loop of `fetch_biorxiv_preprints` (lines 84-103): as for arXiv
but parsing the whole timestamp and stripping the abstract. -/
def biorxivPapers (category : String) (target_date : Date) : List Entry → Option (List Record)
  | [] => some []
  | e :: es =>
    match entryDateBiorxiv e.updated with
    | none => none
    | some d =>
      match biorxivPapers category target_date es with
      | none => none
      | some rest =>
        if d = target_date then some (mkBiorxivRecord category target_date e :: rest)
        else some rest

/-- The keep-and-normalize decision of the arXiv entry loop, read off one
iteration of lines 44-63: `some record` exactly when the entry's parsed date
equals the target date. -/
def keepArxiv (category : String) (td : Date) (e : Entry) : Option Record :=
  match entryDateArxiv e.updated with
  | none => none
  | some d => if d = td then some (mkArxivRecord category td e) else none

/-- The keep-and-normalize decision of the bioRxiv entry loop, read off one
iteration of lines 84-103. -/
def keepBiorxiv (category : String) (td : Date) (e : Entry) : Option Record :=
  match entryDateBiorxiv e.updated with
  | none => none
  | some d => if d = td then some (mkBiorxivRecord category td e) else none

/-- Fixed arXiv endpoint of `fetch_arxiv_preprints`. -/
def arxivBaseUrl : String := "https://rss.arxiv.org/atom/"

/-- Fixed bioRxiv endpoint of `fetch_biorxiv_preprints`. -/
def biorxivBaseUrl : String := "http://connect.biorxiv.org/biorxiv_xml.php?subject="

/-- `fetch_arxiv_preprints(category, submitted_date_str)`, with the network
modelled by `feedOf`. Returns the list of URLs requested and `some papers`
on success; parsing the target date happens before the request is built, so
a bad target date makes no request. -/
def fetch_arxiv_preprints (feedOf : String → List Entry)
    (category submitted_date_str : String) : List String × Option (List Record) :=
  match parseDate submitted_date_str with
  | none => ([], none)
  | some target_date =>
    let url := arxivBaseUrl ++ category
    ([url], arxivPapers category target_date (feedOf url))

/-- `fetch_biorxiv_preprints(category, submitted_date_str)`, with the network
modelled by `feedOf`. -/
def fetch_biorxiv_preprints (feedOf : String → List Entry)
    (category submitted_date_str : String) : List String × Option (List Record) :=
  match parseDate submitted_date_str with
  | none => ([], none)
  | some target_date =>
    let url := biorxivBaseUrl ++ category
    ([url], biorxivPapers category target_date (feedOf url))

/-- Decimal digit character, as printed by `str.format` for an in-range value. -/
def digitChar (n : Nat) : Char :=
  Char.ofNat (48 + n % 10)

/-- Python `str(date)`: ISO `YYYY-MM-DD` with zero padding, as interpolated
by the renderer's f-string for the `datetime` dictionary value. -/
def dateToString (d : Date) : String :=
  ⟨[digitChar (d.year / 1000), digitChar (d.year / 100),
    digitChar (d.year / 10), digitChar d.year, '-',
    digitChar (d.month / 10), digitChar d.month, '-',
    digitChar (d.day / 10), digitChar d.day]⟩

/-- Dictionary access `preprint[key]` on a record, with every value rendered
the way the f-string renders it; `none` models Python's `KeyError` for an
unknown key. -/
def fieldStr (r : Record) : String → Option String
  | "title" => some r.title
  | "category" => some r.category
  | "authors" => some r.authors
  | "datetime" => some (dateToString r.datetime)
  | "abstract" => some r.abstract
  | "url" => some r.url
  | _ => none

/-- The fixed HTML head and style block that `generate_html` starts with
(lines 114-156 of `main.py`). -/
def htmlHeader : String :=
  "<!DOCTYPE html>\n<html lang=\"en\">\n<head>\n    <meta charset=\"UTF-8\">\n    <meta name=\"viewport\" content=\"width=device-width, initial-scale=1.0\">\n    <title>Preprints</title>\n    <style>\n        body \x7b\n            font-family: \"Times New Roman\", Times, serif;\n            margin: 40px;\n            background-color: #fdfdfd;\n            color: #000;\n            line-height: 1.6;\n        \x7d\n        h1 \x7b\n            text-align: center;\n            margin-bottom: 50px;\n        \x7d\n        .preprint \x7b\n            margin-bottom: 40px;\n            padding-bottom: 20px;\n            border-bottom: 1px solid #ccc;\n        \x7d\n        .preprint-title \x7b\n            font-size: 1.4em;\n            font-weight: bold;\n            margin-bottom: 5px;\n        \x7d\n        .preprint-date \x7b\n            margin-bottom: 10px;\n        \x7d\n        .preprint-authors \x7b\n            font-style: italic;\n            margin-bottom: 10px;\n        \x7d\n        .preprint-abstract \x7b\n            margin-top: 10px;\n            font-size: 1em;\n        \x7d\n    </style>\n</head>\n<body>\n    "

/-- The closing lines of the document (lines 171-174 of `main.py`). -/
def htmlFooter : String :=
  "\n</body>\n</html>\n    "

/-- The text of the block the renderer loop appends for one record (lines
161-168 of `main.py`): linked title, date, authors, and the resolved content
field, all interpolated verbatim with no escaping. -/
def blockString (p : Record) (contents : String) : String :=
  "\n    <div class=\"preprint\">\n        <div class=\"preprint-title\"><a href=\""
    ++ p.url ++ "\">" ++ p.title
    ++ "</a></div>\n        <div class=\"preprint-dates\">" ++ dateToString p.datetime
    ++ "</div>\n        <div class=\"preprint-authors\">" ++ p.authors
    ++ "</div>\n        <div class=\"preprint-abstract\">" ++ contents
    ++ "</div>\n    </div>\n        "

/-- The per-record block appended by the renderer loop, `none` when the
content key lookup raises. -/
def preprintBlock (contents_key : String) (p : Record) : Option String :=
  match fieldStr p contents_key with
  | none => none
  | some contents => some (blockString p contents)

/-- Concatenation of the per-record blocks in input order. -/
def preprintBlocks (contents_key : String) : List Record → Option String
  | [] => some ""
  | p :: ps =>
    match preprintBlock contents_key p, preprintBlocks contents_key ps with
    | some b, some rest => some (b ++ rest)
    | _, _ => none

/-- `generate_html(preprints, subtitle, contents_key)`: header, heading with
the subtitle, one block per record in input order, footer. `none` models the
`KeyError` raised for an unknown content key. -/
def generate_html (preprints : List Record) (subtitle contents_key : String) :
    Option String :=
  match preprintBlocks contents_key preprints with
  | none => none
  | some body =>
    some (htmlHeader ++ "<h1>Preprints: " ++ subtitle ++ "</h1>" ++ body ++ htmlFooter)

/-- Sort key comparison of `papers.sort(key=lambda x: x["datetime"])`. -/
def recLe (a b : Record) : Prop :=
  dateLe a.datetime b.datetime

instance : DecidableRel recLe := fun a b => by
  unfold recLe; infer_instance

instance : IsTotal Record recLe :=
  ⟨fun a b => by unfold recLe dateLe; omega⟩

instance : IsTrans Record recLe :=
  ⟨fun a b c => by unfold recLe dateLe; omega⟩

/-- Python's `list.sort` is a stable sort by the key; `List.insertionSort`
with the non-strict key comparison realizes exactly that specification. -/
def sortPapers (papers : List Record) : List Record :=
  List.insertionSort recLe papers

/-- The elements of the Python set `set((i, e["title"]) for i, e in
enumerate(papers))` (line 207 of `main.py`): one `(index, title)` key per
record. The keys are pairwise distinct, so the set holds all of them. -/
def titleKeys (papers : List Record) : List (Nat × String) :=
  (List.range papers.length).map (fun i => (i, (papers.getD i default).title))

/-- The "remove duplicants" step `[papers[i] for i, _ in titles]` (line 208
of `main.py`). A CPython `set` iterates in an unspecified, per-process
salted order, so the iteration is modelled by an explicit enumeration
`order` of the set's elements; an admissible `order` is any permutation of
`titleKeys papers`. -/
def removeDuplicants (order : List (Nat × String)) (papers : List Record) : List Record :=
  order.map (fun p => papers.getD p.1 default)

/-- The aggregation stage of `main` (lines 203-208): concatenate the fetcher
outputs, sort by date, remove duplicates via the set of `(index, title)`
keys enumerated in `order`. -/
def aggregate (order : List (Nat × String)) (l1 l2 : List Record) : List Record :=
  removeDuplicants order (sortPapers (l1 ++ l2))

/-- The fetch phase of `main` (lines 187-201): call the arXiv fetcher only
when the category list is truthy (nonempty), then the bioRxiv fetcher only
when the subject list is truthy, joining each list with "+"; extend the
accumulated papers with each result. A raised fetch aborts the run, and the
arXiv fetch happens first. Returns all requested URLs and the accumulated
papers. -/
def fetchPhase (feedOf : String → List Entry) (categories subjects : List String)
    (publication_date : String) : List String × Option (List Record) :=
  let a :=
    if categories.isEmpty then ([], some [])
    else fetch_arxiv_preprints feedOf (pyJoin "+" categories) publication_date
  match a with
  | (reqsA, none) => (reqsA, none)
  | (reqsA, some papersA) =>
    let b :=
      if subjects.isEmpty then ([], some [])
      else fetch_biorxiv_preprints feedOf (pyJoin "+" subjects) publication_date
    match b with
    | (reqsB, none) => (reqsA ++ reqsB, none)
    | (reqsB, some papersB) => (reqsA ++ reqsB, some (papersA ++ papersB))

/-- `appearsIn a s` says the string `a` occurs verbatim as a contiguous
substring of `s`. -/
def appearsIn (a s : String) : Prop :=
  ∃ u v, s = u ++ a ++ v

/-- A small two-URL feed environment used to exercise the fetchers on
concrete inputs: the arXiv URL for category "a" serves one entry with a
time-of-day suffix in its timestamp, every other URL serves one entry with
a bare-date timestamp. -/
def wFeed : String → List Entry := fun u =>
  if u = arxivBaseUrl ++ "a" then
    [⟨" A ", "u", "s", ["N"], "2025-04-01T00:00:00"⟩]
  else
    [⟨" B ", "v", " t ", ["M"], "2025-04-01"⟩]

/-! ### Basic facts about dates and the sort order -/

theorem dateLe_refl (a : Date) : dateLe a a := by
  unfold dateLe; omega

theorem recLe_of_datetime_eq {a b : Record} (h : a.datetime = b.datetime) :
    recLe a b := by
  unfold recLe; rw [h]; exact dateLe_refl _

theorem sorted_of_const_date {l : List Record} {td : Date}
    (h : ∀ r ∈ l, r.datetime = td) : List.Sorted recLe l := by
  induction l with
  | nil => exact List.sorted_nil
  | cons a l ih =>
    rw [List.sorted_cons]
    refine ⟨fun b hb => ?_, ih fun r hr => h r (List.mem_cons_of_mem _ hr)⟩
    exact recLe_of_datetime_eq
      ((h a (List.mem_cons_self a l)).trans (h b (List.mem_cons_of_mem _ hb)).symm)

/-! ### The duplicate-removal step -/

theorem map_getD_range {α : Type} (d : α) :
    ∀ l : List α, (List.range l.length).map (fun i => l.getD i d) = l
  | [] => rfl
  | a :: l => by
    rw [List.length_cons, List.range_succ_eq_map, List.map_cons, List.map_map]
    have hf : ((fun i => (a :: l).getD i d) ∘ Nat.succ) = fun i => l.getD i d := by
      funext i; simp
    rw [List.getD_cons_zero, hf, map_getD_range d l]

theorem titleKeys_nodup (papers : List Record) : (titleKeys papers).Nodup := by
  unfold titleKeys
  exact (List.nodup_range _).map fun i j h => congrArg Prod.fst h

theorem removeDuplicants_titleKeys (papers : List Record) :
    removeDuplicants (titleKeys papers) papers = papers := by
  unfold removeDuplicants titleKeys
  rw [List.map_map]
  exact map_getD_range default papers

theorem removeDuplicants_perm {order : List (Nat × String)} {papers : List Record}
    (h : order.Perm (titleKeys papers)) :
    (removeDuplicants order papers).Perm papers := by
  have h2 := List.Perm.map (fun p : Nat × String => papers.getD p.1 default) h
  have h3 : (titleKeys papers).map (fun p : Nat × String => papers.getD p.1 default) =
      papers := removeDuplicants_titleKeys papers
  rw [h3] at h2
  exact h2

/-! ### Stability of the sort -/

theorem filter_orderedInsert (d : Date) (a : Record) (l : List Record) :
    (List.orderedInsert recLe a l).filter (fun x => decide (x.datetime = d)) =
      if a.datetime = d then a :: l.filter (fun x => decide (x.datetime = d))
      else l.filter (fun x => decide (x.datetime = d)) := by
  induction l with
  | nil =>
    by_cases h : a.datetime = d <;>
      simp [List.orderedInsert, List.filter_cons, h]
  | cons b l ih =>
    by_cases hab : recLe a b
    · rw [List.orderedInsert, if_pos hab]
      by_cases h : a.datetime = d <;> simp [List.filter_cons, h]
    · rw [List.orderedInsert, if_neg hab]
      by_cases h : a.datetime = d
      · have hb : ¬ b.datetime = d := fun hbb =>
          hab (recLe_of_datetime_eq (h.trans hbb.symm))
        simp [List.filter_cons, h, hb, ih]
      · simp [List.filter_cons, ih, h]

theorem filter_sortPapers (d : Date) (l : List Record) :
    (sortPapers l).filter (fun x => decide (x.datetime = d)) =
      l.filter (fun x => decide (x.datetime = d)) := by
  unfold sortPapers
  induction l with
  | nil => rfl
  | cons a l ih =>
    rw [List.insertionSort, filter_orderedInsert, List.filter_cons]
    by_cases h : a.datetime = d <;> simp [h, ih]

/-! ### Characterization of the fetcher loops -/

theorem arxivPapers_eq {category : String} {td : Date} :
    ∀ {es : List Entry} {papers : List Record},
      arxivPapers category td es = some papers →
      papers = es.filterMap (keepArxiv category td)
  | [], papers, h => by
    simp only [arxivPapers, Option.some.injEq] at h
    simp [← h]
  | e :: es, papers, h => by
    unfold arxivPapers at h
    cases hd : entryDateArxiv e.updated with
    | none =>
      simp only [hd] at h
      exact Option.noConfusion h
    | some d =>
      simp only [hd] at h
      cases hr : arxivPapers category td es with
      | none =>
        simp only [hr] at h
        exact Option.noConfusion h
      | some rest =>
        simp only [hr] at h
        have ih := arxivPapers_eq hr
        have hk : keepArxiv category td e =
            (if d = td then some (mkArxivRecord category td e) else none) := by
          unfold keepArxiv
          rw [hd]
        rw [List.filterMap_cons, hk]
        by_cases hdt : d = td
        · rw [if_pos hdt] at h
          rw [if_pos hdt]
          injection h with h
          rw [← h, ih]
        · rw [if_neg hdt] at h
          rw [if_neg hdt]
          injection h with h
          rw [← h, ih]

theorem biorxivPapers_eq {category : String} {td : Date} :
    ∀ {es : List Entry} {papers : List Record},
      biorxivPapers category td es = some papers →
      papers = es.filterMap (keepBiorxiv category td)
  | [], papers, h => by
    simp only [biorxivPapers, Option.some.injEq] at h
    simp [← h]
  | e :: es, papers, h => by
    unfold biorxivPapers at h
    cases hd : entryDateBiorxiv e.updated with
    | none =>
      simp only [hd] at h
      exact Option.noConfusion h
    | some d =>
      simp only [hd] at h
      cases hr : biorxivPapers category td es with
      | none =>
        simp only [hr] at h
        exact Option.noConfusion h
      | some rest =>
        simp only [hr] at h
        have ih := biorxivPapers_eq hr
        have hk : keepBiorxiv category td e =
            (if d = td then some (mkBiorxivRecord category td e) else none) := by
          unfold keepBiorxiv
          rw [hd]
        rw [List.filterMap_cons, hk]
        by_cases hdt : d = td
        · rw [if_pos hdt] at h
          rw [if_pos hdt]
          injection h with h
          rw [← h, ih]
        · rw [if_neg hdt] at h
          rw [if_neg hdt]
          injection h with h
          rw [← h, ih]

theorem keepArxiv_fields {category : String} {td : Date} {e : Entry} {r : Record}
    (h : keepArxiv category td e = some r) :
    r.datetime = td ∧ r.title = pyStrip e.title ∧
      r.authors = pyJoin ", " e.authors ∧ r.abstract = e.summary ∧
      r.url = e.link ∧ r.category = category ∧ entryDateArxiv e.updated = some td := by
  unfold keepArxiv at h
  cases hd : entryDateArxiv e.updated with
  | none =>
    simp only [hd] at h
    exact Option.noConfusion h
  | some d =>
    simp only [hd] at h
    by_cases hdt : d = td
    · rw [if_pos hdt] at h
      injection h with h
      subst h
      exact ⟨rfl, rfl, rfl, rfl, rfl, rfl, by rw [hdt]⟩
    · rw [if_neg hdt] at h
      exact Option.noConfusion h

theorem keepBiorxiv_fields {category : String} {td : Date} {e : Entry} {r : Record}
    (h : keepBiorxiv category td e = some r) :
    r.datetime = td ∧ r.title = pyStrip e.title ∧
      r.authors = pyJoin ", " e.authors ∧ r.abstract = pyStrip e.summary ∧
      r.url = e.link ∧ r.category = category ∧ entryDateBiorxiv e.updated = some td := by
  unfold keepBiorxiv at h
  cases hd : entryDateBiorxiv e.updated with
  | none =>
    simp only [hd] at h
    exact Option.noConfusion h
  | some d =>
    simp only [hd] at h
    by_cases hdt : d = td
    · rw [if_pos hdt] at h
      injection h with h
      subst h
      exact ⟨rfl, rfl, rfl, rfl, rfl, rfl, by rw [hdt]⟩
    · rw [if_neg hdt] at h
      exact Option.noConfusion h

theorem fetch_arxiv_eq {feedOf : String → List Entry} {category ds : String} {td : Date}
    (hd : parseDate ds = some td) :
    fetch_arxiv_preprints feedOf category ds =
      ([arxivBaseUrl ++ category],
        arxivPapers category td (feedOf (arxivBaseUrl ++ category))) := by
  unfold fetch_arxiv_preprints
  rw [hd]

theorem fetch_biorxiv_eq {feedOf : String → List Entry} {category ds : String} {td : Date}
    (hd : parseDate ds = some td) :
    fetch_biorxiv_preprints feedOf category ds =
      ([biorxivBaseUrl ++ category],
        biorxivPapers category td (feedOf (biorxivBaseUrl ++ category))) := by
  unfold fetch_biorxiv_preprints
  rw [hd]

theorem arxivPapers_datetime {category : String} {td : Date} {es : List Entry}
    {papers : List Record} (h : arxivPapers category td es = some papers) :
    ∀ r ∈ papers, r.datetime = td := by
  intro r hr
  rw [arxivPapers_eq h] at hr
  obtain ⟨e, _, he⟩ := List.mem_filterMap.mp hr
  exact (keepArxiv_fields he).1

theorem biorxivPapers_datetime {category : String} {td : Date} {es : List Entry}
    {papers : List Record} (h : biorxivPapers category td es = some papers) :
    ∀ r ∈ papers, r.datetime = td := by
  intro r hr
  rw [biorxivPapers_eq h] at hr
  obtain ⟨e, _, he⟩ := List.mem_filterMap.mp hr
  exact (keepBiorxiv_fields he).1

/-! ### Facts about the character-level split -/

theorem splitOnChar_ne_nil (c : Char) : ∀ l : List Char, splitOnChar c l ≠ []
  | [] => by simp [splitOnChar]
  | x :: xs => by
    simp only [splitOnChar]
    split <;> simp

theorem splitOnChar_no_sep (c : Char) :
    ∀ l : List Char, c ∉ l → splitOnChar c l = [l]
  | [], _ => rfl
  | x :: xs, h => by
    have hx : ¬ x = c := fun he => h (he ▸ List.mem_cons_self x xs)
    have hxs : c ∉ xs := fun hm => h (List.mem_cons_of_mem _ hm)
    simp only [splitOnChar]
    rw [if_neg hx, splitOnChar_no_sep c xs hxs]
    rfl

theorem splitOnChar_append (c : Char) :
    ∀ (d rest : List Char), c ∉ d →
      splitOnChar c (d ++ c :: rest) = d :: splitOnChar c rest
  | [], rest, _ => by simp [splitOnChar]
  | x :: d, rest, h => by
    have hx : ¬ x = c := fun he => h (he ▸ List.mem_cons_self x d)
    have hd : c ∉ d := fun hm => h (List.mem_cons_of_mem _ hm)
    have ih := splitOnChar_append c d rest hd
    rw [List.cons_append]
    simp only [splitOnChar, List.append_eq]
    rw [if_neg hx, ih]
    rfl

theorem mem_splitOnChar {c x : Char} (hx : x ≠ c) :
    ∀ {l : List Char}, x ∈ l → ∃ p ∈ splitOnChar c l, x ∈ p := by
  intro l
  induction l with
  | nil => intro h; cases h
  | cons y ys ih =>
    intro h
    by_cases hy : y = c
    · have hxy : x ∈ ys := by
        cases List.mem_cons.mp h with
        | inl he => exact absurd (he.trans hy) hx
        | inr hm => exact hm
      obtain ⟨p, hp, hxp⟩ := ih hxy
      refine ⟨p, ?_, hxp⟩
      simp only [splitOnChar]
      rw [if_pos hy]
      exact List.mem_cons_of_mem _ hp
    · rcases List.mem_cons.mp h with he | hm
      · refine ⟨y :: (splitOnChar c ys).headD [], ?_, ?_⟩
        · simp only [splitOnChar]
          rw [if_neg hy]
          exact List.mem_cons_self _ _
        · rw [he]
          exact List.mem_cons_self _ _
      · obtain ⟨p, hp, hxp⟩ := ih hm
        rcases hsp : splitOnChar c ys with _ | ⟨q, qs⟩
        · exact absurd hsp (splitOnChar_ne_nil c ys)
        · rw [hsp] at hp
          rcases List.mem_cons.mp hp with hpq | hpqs
          · refine ⟨y :: q, ?_, ?_⟩
            · simp only [splitOnChar]
              rw [if_neg hy, hsp]
              exact List.mem_cons_self _ _
            · exact List.mem_cons_of_mem _ (hpq ▸ hxp)
          · refine ⟨p, ?_, hxp⟩
            simp only [splitOnChar]
            rw [if_neg hy, hsp]
            exact List.mem_cons_of_mem _ hpqs

theorem parseYMDChars_of_mem_T {l : List Char} (h : 'T' ∈ l) :
    parseYMDChars l = none := by
  obtain ⟨p, hp, hTp⟩ := mem_splitOnChar (c := '-') (by decide) h
  rcases hs : splitOnChar '-' l with _ | ⟨ys, _ | ⟨ms, _ | ⟨ds, _ | ⟨e, es⟩⟩⟩⟩ <;>
    simp only [parseYMDChars, hs]
  rw [hs] at hp
  simp only [List.mem_cons, List.not_mem_nil, or_false] at hp
  have hdig : ¬ (ys.length = 4 ∧ ys.all Char.isDigit
      ∧ 1 ≤ ms.length ∧ ms.length ≤ 2 ∧ ms.all Char.isDigit
      ∧ 1 ≤ ds.length ∧ ds.length ≤ 2 ∧ ds.all Char.isDigit) := by
    intro hcond
    have hT : Char.isDigit 'T' = true → False := by decide
    rcases hp with rfl | rfl | rfl
    · exact hT (List.all_eq_true.mp hcond.2.1 'T' hTp)
    · exact hT (List.all_eq_true.mp hcond.2.2.2.2.1 'T' hTp)
    · exact hT (List.all_eq_true.mp hcond.2.2.2.2.2.2.2 'T' hTp)
  rw [if_neg hdig]

/-! ### Substring occurrence machinery for the renderer -/

theorem strAppendAssoc (a b c : String) : a ++ b ++ c = a ++ (b ++ c) := by
  apply String.ext
  simp [String.data_append]

theorem appearsIn_left {a s : String} (t : String) (h : appearsIn a s) :
    appearsIn a (t ++ s) := by
  obtain ⟨u, v, rfl⟩ := h
  refine ⟨t ++ u, v, ?_⟩
  apply String.ext
  simp [String.data_append]

theorem appearsIn_right {a s : String} (t : String) (h : appearsIn a s) :
    appearsIn a (s ++ t) := by
  obtain ⟨u, v, rfl⟩ := h
  refine ⟨u, v ++ t, ?_⟩
  apply String.ext
  simp [String.data_append]

theorem appearsIn_append_self (x a : String) : appearsIn a (x ++ a) := by
  refine ⟨x, "", ?_⟩
  apply String.ext
  simp [String.data_append]

theorem blockString_fields (p : Record) (contents : String) :
    appearsIn p.title (blockString p contents) ∧
      appearsIn p.authors (blockString p contents) ∧
      appearsIn contents (blockString p contents) := by
  unfold blockString
  refine ⟨?_, ?_, ?_⟩
  · apply appearsIn_right
    apply appearsIn_right
    apply appearsIn_right
    apply appearsIn_right
    apply appearsIn_right
    apply appearsIn_right
    apply appearsIn_right
    exact appearsIn_append_self _ _
  · apply appearsIn_right
    apply appearsIn_right
    apply appearsIn_right
    exact appearsIn_append_self _ _
  · apply appearsIn_right
    exact appearsIn_append_self _ _

theorem preprintBlock_abstract (p : Record) :
    preprintBlock "abstract" p = some (blockString p p.abstract) := by
  simp [preprintBlock, fieldStr]

theorem preprintBlocks_abstract :
    ∀ l : List Record, ∃ s, preprintBlocks "abstract" l = some s
  | [] => ⟨"", rfl⟩
  | p :: ps => by
    obtain ⟨s, hs⟩ := preprintBlocks_abstract ps
    refine ⟨blockString p p.abstract ++ s, ?_⟩
    simp only [preprintBlocks, preprintBlock_abstract, hs]

theorem mem_blocks_decompose {r : Record} :
    ∀ {l : List Record}, r ∈ l →
      ∃ pre post,
        preprintBlocks "abstract" l =
          some (pre ++ blockString r r.abstract ++ post) := by
  intro l
  induction l with
  | nil => intro h; cases h
  | cons p ps ih =>
    intro h
    rcases List.mem_cons.mp h with he | hm
    · obtain ⟨s, hs⟩ := preprintBlocks_abstract ps
      refine ⟨"", s, ?_⟩
      simp only [preprintBlocks, preprintBlock_abstract, hs, he]
      rfl
    · obtain ⟨pre, post, hb⟩ := ih hm
      refine ⟨blockString p p.abstract ++ pre, post, ?_⟩
      simp only [preprintBlocks, preprintBlock_abstract, hb]
      refine congrArg some ?_
      apply String.ext
      simp [String.data_append]

/-! ### Projections of the fetcher results -/

theorem fetch_arxiv_snd {feedOf : String → List Entry} {category ds : String}
    {td : Date} (hd : parseDate ds = some td) :
    (fetch_arxiv_preprints feedOf category ds).2 =
      arxivPapers category td (feedOf (arxivBaseUrl ++ category)) := by
  rw [fetch_arxiv_eq hd]

theorem fetch_biorxiv_snd {feedOf : String → List Entry} {category ds : String}
    {td : Date} (hd : parseDate ds = some td) :
    (fetch_biorxiv_preprints feedOf category ds).2 =
      biorxivPapers category td (feedOf (biorxivBaseUrl ++ category)) := by
  rw [fetch_biorxiv_eq hd]

/-! ### Claims -/

/-- Claim C1: the "remove duplicants" step of the aggregator removes no
records: pairing each record with its positional index before building the
uniqueness set makes every key distinct, so for any admissible enumeration
of that set the resulting list has the same length and the same multiset of
records as the input, even when two records have identical titles. -/
theorem claim1_dedup_removes_nothing (papers : List Record)
    (order : List (Nat × String)) (horder : order.Perm (titleKeys papers)) :
    (titleKeys papers).Nodup ∧
      (removeDuplicants order papers).length = papers.length ∧
      (removeDuplicants order papers).Perm papers := by
  have hperm := removeDuplicants_perm horder
  exact ⟨titleKeys_nodup papers, hperm.length_eq, hperm⟩

/-- Witness for C1 at a two-record list whose records share one title, with
a reversed set-enumeration order. -/
theorem claim1_dedup_removes_nothing_witness :
    (titleKeys [⟨"Dup", "cs.AI", "X", ⟨2025, 4, 1⟩, "a", "u1"⟩,
      ⟨"Dup", "q-bio", "Y", ⟨2025, 4, 1⟩, "b", "u2"⟩]).Nodup ∧
      (removeDuplicants [(1, "Dup"), (0, "Dup")]
        [⟨"Dup", "cs.AI", "X", ⟨2025, 4, 1⟩, "a", "u1"⟩,
          ⟨"Dup", "q-bio", "Y", ⟨2025, 4, 1⟩, "b", "u2"⟩]).length =
        ([⟨"Dup", "cs.AI", "X", ⟨2025, 4, 1⟩, "a", "u1"⟩,
          ⟨"Dup", "q-bio", "Y", ⟨2025, 4, 1⟩, "b", "u2"⟩] : List Record).length ∧
      (removeDuplicants [(1, "Dup"), (0, "Dup")]
        [⟨"Dup", "cs.AI", "X", ⟨2025, 4, 1⟩, "a", "u1"⟩,
          ⟨"Dup", "q-bio", "Y", ⟨2025, 4, 1⟩, "b", "u2"⟩]).Perm
        [⟨"Dup", "cs.AI", "X", ⟨2025, 4, 1⟩, "a", "u1"⟩,
          ⟨"Dup", "q-bio", "Y", ⟨2025, 4, 1⟩, "b", "u2"⟩] :=
  claim1_dedup_removes_nothing
    [⟨"Dup", "cs.AI", "X", ⟨2025, 4, 1⟩, "a", "u1"⟩,
      ⟨"Dup", "q-bio", "Y", ⟨2025, 4, 1⟩, "b", "u2"⟩]
    [(1, "Dup"), (0, "Dup")] (by decide)

/-- Claim C2: every record either fetcher outputs carries the requested
target date in its `datetime` field, and an entry of the fetched feed is
kept exactly when the date parsed from its timestamp equals the date parsed
from the target-date string. -/
theorem claim2_fetcher_dates_exact (feedOf : String → List Entry)
    (catA catB ds : String) (td : Date) (pA pB : List Record)
    (hd : parseDate ds = some td)
    (hA : (fetch_arxiv_preprints feedOf catA ds).2 = some pA)
    (hB : (fetch_biorxiv_preprints feedOf catB ds).2 = some pB) :
    (∀ r ∈ pA, r.datetime = td) ∧ (∀ r ∈ pB, r.datetime = td) ∧
      pA = (feedOf (arxivBaseUrl ++ catA)).filterMap (keepArxiv catA td) ∧
      pB = (feedOf (biorxivBaseUrl ++ catB)).filterMap (keepBiorxiv catB td) := by
  rw [fetch_arxiv_snd hd] at hA
  rw [fetch_biorxiv_snd hd] at hB
  exact ⟨arxivPapers_datetime hA, biorxivPapers_datetime hB,
    arxivPapers_eq hA, biorxivPapers_eq hB⟩

/-- Witness for C2 on the concrete feed environment `wFeed`. -/
theorem claim2_fetcher_dates_exact_witness :
    (∀ r ∈ [(⟨"A", "a", "N", ⟨2025, 4, 1⟩, "s", "u"⟩ : Record)],
        r.datetime = (⟨2025, 4, 1⟩ : Date)) ∧
      (∀ r ∈ [(⟨"B", "b", "M", ⟨2025, 4, 1⟩, "t", "v"⟩ : Record)],
        r.datetime = (⟨2025, 4, 1⟩ : Date)) ∧
      [(⟨"A", "a", "N", ⟨2025, 4, 1⟩, "s", "u"⟩ : Record)] =
        (wFeed (arxivBaseUrl ++ "a")).filterMap (keepArxiv "a" ⟨2025, 4, 1⟩) ∧
      [(⟨"B", "b", "M", ⟨2025, 4, 1⟩, "t", "v"⟩ : Record)] =
        (wFeed (biorxivBaseUrl ++ "b")).filterMap (keepBiorxiv "b" ⟨2025, 4, 1⟩) :=
  claim2_fetcher_dates_exact wFeed "a" "b" "2025-04-01" ⟨2025, 4, 1⟩
    [⟨"A", "a", "N", ⟨2025, 4, 1⟩, "s", "u"⟩]
    [⟨"B", "b", "M", ⟨2025, 4, 1⟩, "t", "v"⟩]
    (by decide) (by decide) (by decide)

/-- Claim C9: every fetched record stores the parsed target date itself
(not the entry's own timestamp) in its `datetime` field, so in one pipeline
run all records reaching the sort have equal sort keys and the sort by
`datetime` is the identity permutation on the concatenated outputs. -/
theorem claim9_sort_identity (feedOf : String → List Entry)
    (catA catB ds : String) (td : Date) (pA pB : List Record)
    (hd : parseDate ds = some td)
    (hA : (fetch_arxiv_preprints feedOf catA ds).2 = some pA)
    (hB : (fetch_biorxiv_preprints feedOf catB ds).2 = some pB) :
    (∀ r ∈ pA ++ pB, r.datetime = td) ∧ sortPapers (pA ++ pB) = pA ++ pB := by
  rw [fetch_arxiv_snd hd] at hA
  rw [fetch_biorxiv_snd hd] at hB
  have hall : ∀ r ∈ pA ++ pB, r.datetime = td := by
    intro r hr
    rcases List.mem_append.mp hr with h | h
    · exact arxivPapers_datetime hA r h
    · exact biorxivPapers_datetime hB r h
  exact ⟨hall, List.Sorted.insertionSort_eq (sorted_of_const_date hall)⟩

/-- Witness for C9 on the concrete feed environment `wFeed`. -/
theorem claim9_sort_identity_witness :
    (∀ r ∈ ([⟨"A", "a", "N", ⟨2025, 4, 1⟩, "s", "u"⟩] : List Record) ++
        [⟨"B", "b", "M", ⟨2025, 4, 1⟩, "t", "v"⟩],
      r.datetime = (⟨2025, 4, 1⟩ : Date)) ∧
      sortPapers (([⟨"A", "a", "N", ⟨2025, 4, 1⟩, "s", "u"⟩] : List Record) ++
          [⟨"B", "b", "M", ⟨2025, 4, 1⟩, "t", "v"⟩]) =
        ([⟨"A", "a", "N", ⟨2025, 4, 1⟩, "s", "u"⟩] : List Record) ++
          [⟨"B", "b", "M", ⟨2025, 4, 1⟩, "t", "v"⟩] :=
  claim9_sort_identity wFeed "a" "b" "2025-04-01" ⟨2025, 4, 1⟩
    [⟨"A", "a", "N", ⟨2025, 4, 1⟩, "s", "u"⟩]
    [⟨"B", "b", "M", ⟨2025, 4, 1⟩, "t", "v"⟩]
    (by decide) (by decide) (by decide)

/-- Claim C10: the fetchers themselves contain no empty-input guard: for
every category string, the empty string included, each fetcher builds its
request URL as the fixed base endpoint concatenated with that string and
issues exactly that one feed request; the degenerate-input guard lives only
in the caller. -/
theorem claim10_no_guard (feedOf : String → List Entry) (category ds : String)
    (td : Date) (hd : parseDate ds = some td) :
    (fetch_arxiv_preprints feedOf category ds).1 = [arxivBaseUrl ++ category] ∧
      (fetch_biorxiv_preprints feedOf category ds).1 = [biorxivBaseUrl ++ category] := by
  rw [fetch_arxiv_eq hd, fetch_biorxiv_eq hd]
  exact ⟨rfl, rfl⟩

/-- Witness for C10 at the empty category string. -/
theorem claim10_no_guard_witness :
    (fetch_arxiv_preprints wFeed "" "2025-04-01").1 = [arxivBaseUrl ++ ""] ∧
      (fetch_biorxiv_preprints wFeed "" "2025-04-01").1 = [biorxivBaseUrl ++ ""] :=
  claim10_no_guard wFeed "" "2025-04-01" ⟨2025, 4, 1⟩ (by decide)

/-- Counterexample to Claim C3 as stated: records A (2025-04-01) and B
(2025-04-02) share no title, yet with the admissible set-enumeration order
that lists the key (1, "B") first, the aggregation stage outputs [B, A],
which is not sorted by publication date ascending. -/
theorem claim3_counterexample :
    [((1 : Nat), "B"), ((0 : Nat), "A")].Perm
        (titleKeys (sortPapers ([⟨"A", "c", "x", ⟨2025, 4, 1⟩, "s", "u"⟩] ++
          [⟨"B", "c", "y", ⟨2025, 4, 2⟩, "t", "v"⟩]))) ∧
      (∀ r1 ∈ [(⟨"A", "c", "x", ⟨2025, 4, 1⟩, "s", "u"⟩ : Record)],
        ∀ r2 ∈ [(⟨"B", "c", "y", ⟨2025, 4, 2⟩, "t", "v"⟩ : Record)],
          r1.title ≠ r2.title) ∧
      ¬ List.Sorted recLe
        (aggregate [((1 : Nat), "B"), ((0 : Nat), "A")]
          [⟨"A", "c", "x", ⟨2025, 4, 1⟩, "s", "u"⟩]
          [⟨"B", "c", "y", ⟨2025, 4, 2⟩, "t", "v"⟩]) := by
  decide

/-- Claim C3 (amended): for two input lists with no shared titles, the
aggregation output's length equals the sum of the input lengths, and the
concatenate-and-sort stage is sorted by date ascending with stable ties
(records of equal date keep their relative input order); the subsequent
set-based duplicate-removal step keeps exactly the same records (a
permutation of the sorted list) but its enumeration order need not
preserve sortedness. -/
theorem claim3_amended (order : List (Nat × String)) (l1 l2 : List Record)
    (horder : order.Perm (titleKeys (sortPapers (l1 ++ l2))))
    (hdisj : ∀ r1 ∈ l1, ∀ r2 ∈ l2, r1.title ≠ r2.title) :
    (aggregate order l1 l2).length = l1.length + l2.length ∧
      List.Sorted recLe (sortPapers (l1 ++ l2)) ∧
      (∀ d : Date,
        (sortPapers (l1 ++ l2)).filter (fun x => decide (x.datetime = d)) =
          (l1 ++ l2).filter (fun x => decide (x.datetime = d))) ∧
      (aggregate order l1 l2).Perm (sortPapers (l1 ++ l2)) := by
  have hperm : (aggregate order l1 l2).Perm (sortPapers (l1 ++ l2)) :=
    removeDuplicants_perm horder
  refine ⟨?_, ?_, fun d => filter_sortPapers d _, hperm⟩
  · rw [hperm.length_eq]
    have hlen : (sortPapers (l1 ++ l2)).length = (l1 ++ l2).length :=
      (List.perm_insertionSort recLe (l1 ++ l2)).length_eq
    rw [hlen]
    exact List.length_append l1 l2
  · exact List.sorted_insertionSort recLe (l1 ++ l2)

/-- Witness for the amended C3 at two disjoint singleton lists and the
identity enumeration order. -/
theorem claim3_amended_witness :
    (aggregate [((0 : Nat), "A"), ((1 : Nat), "B")]
        [⟨"A", "c", "x", ⟨2025, 4, 1⟩, "s", "u"⟩]
        [⟨"B", "c", "y", ⟨2025, 4, 2⟩, "t", "v"⟩]).length =
      ([⟨"A", "c", "x", ⟨2025, 4, 1⟩, "s", "u"⟩] : List Record).length +
        ([⟨"B", "c", "y", ⟨2025, 4, 2⟩, "t", "v"⟩] : List Record).length ∧
      List.Sorted recLe
        (sortPapers (([⟨"A", "c", "x", ⟨2025, 4, 1⟩, "s", "u"⟩] : List Record) ++
          [⟨"B", "c", "y", ⟨2025, 4, 2⟩, "t", "v"⟩])) ∧
      (∀ d : Date,
        (sortPapers (([⟨"A", "c", "x", ⟨2025, 4, 1⟩, "s", "u"⟩] : List Record) ++
            [⟨"B", "c", "y", ⟨2025, 4, 2⟩, "t", "v"⟩])).filter
            (fun x => decide (x.datetime = d)) =
          (([⟨"A", "c", "x", ⟨2025, 4, 1⟩, "s", "u"⟩] : List Record) ++
            ([⟨"B", "c", "y", ⟨2025, 4, 2⟩, "t", "v"⟩] : List Record)).filter
            (fun x => decide (x.datetime = d))) ∧
      (aggregate [((0 : Nat), "A"), ((1 : Nat), "B")]
        [⟨"A", "c", "x", ⟨2025, 4, 1⟩, "s", "u"⟩]
        [⟨"B", "c", "y", ⟨2025, 4, 2⟩, "t", "v"⟩]).Perm
        (sortPapers (([⟨"A", "c", "x", ⟨2025, 4, 1⟩, "s", "u"⟩] : List Record) ++
          [⟨"B", "c", "y", ⟨2025, 4, 2⟩, "t", "v"⟩])) :=
  claim3_amended [((0 : Nat), "A"), ((1 : Nat), "B")]
    [⟨"A", "c", "x", ⟨2025, 4, 1⟩, "s", "u"⟩]
    [⟨"B", "c", "y", ⟨2025, 4, 2⟩, "t", "v"⟩]
    (by decide) (by decide)

/-- Counterexample to Claim C4 as stated: a CPython set iterates in an
unspecified per-process order (string hashes are salted), so two runs over
equal fetcher outputs may enumerate the uniqueness set differently; here
two admissible enumeration orders of the same set yield different output
orders for the same inputs. -/
theorem claim4_counterexample :
    [((0 : Nat), "P"), ((1 : Nat), "Q")].Perm
        (titleKeys (sortPapers ([⟨"P", "c", "x", ⟨2025, 5, 1⟩, "s", "u"⟩] ++
          [⟨"Q", "c", "y", ⟨2025, 5, 2⟩, "t", "v"⟩]))) ∧
      [((1 : Nat), "Q"), ((0 : Nat), "P")].Perm
        (titleKeys (sortPapers ([⟨"P", "c", "x", ⟨2025, 5, 1⟩, "s", "u"⟩] ++
          [⟨"Q", "c", "y", ⟨2025, 5, 2⟩, "t", "v"⟩]))) ∧
      aggregate [((0 : Nat), "P"), ((1 : Nat), "Q")]
          [⟨"P", "c", "x", ⟨2025, 5, 1⟩, "s", "u"⟩]
          [⟨"Q", "c", "y", ⟨2025, 5, 2⟩, "t", "v"⟩] ≠
        aggregate [((1 : Nat), "Q"), ((0 : Nat), "P")]
          [⟨"P", "c", "x", ⟨2025, 5, 1⟩, "s", "u"⟩]
          [⟨"Q", "c", "y", ⟨2025, 5, 2⟩, "t", "v"⟩] := by
  decide

/-- Claim C4 (amended): the aggregation stage is deterministic up to the
set-enumeration order: for equal fetcher outputs, any two admissible
enumeration orders yield the same records as lists that are permutations of
each other (the multiset of records is determined by the inputs), and equal
enumeration orders yield identical output. -/
theorem claim4_amended (o1 o2 : List (Nat × String)) (l1 l2 : List Record)
    (h1 : o1.Perm (titleKeys (sortPapers (l1 ++ l2))))
    (h2 : o2.Perm (titleKeys (sortPapers (l1 ++ l2)))) :
    (aggregate o1 l1 l2).Perm (aggregate o2 l1 l2) :=
  (removeDuplicants_perm h1).trans (removeDuplicants_perm h2).symm

/-- Witness for the amended C4 at the two enumeration orders of the
counterexample's input. -/
theorem claim4_amended_witness :
    (aggregate [((0 : Nat), "P"), ((1 : Nat), "Q")]
        [⟨"P", "c", "x", ⟨2025, 5, 1⟩, "s", "u"⟩]
        [⟨"Q", "c", "y", ⟨2025, 5, 2⟩, "t", "v"⟩]).Perm
      (aggregate [((1 : Nat), "Q"), ((0 : Nat), "P")]
        [⟨"P", "c", "x", ⟨2025, 5, 1⟩, "s", "u"⟩]
        [⟨"Q", "c", "y", ⟨2025, 5, 2⟩, "t", "v"⟩]) :=
  claim4_amended [((0 : Nat), "P"), ((1 : Nat), "Q")] [((1 : Nat), "Q"), ((0 : Nat), "P")]
    [⟨"P", "c", "x", ⟨2025, 5, 1⟩, "s", "u"⟩]
    [⟨"Q", "c", "y", ⟨2025, 5, 2⟩, "t", "v"⟩]
    (by decide) (by decide)

/-- Claim C5: the renderer performs no HTML escaping: every rendered
record's title, authors field and abstract occur verbatim as contiguous
substrings of the document `generate_html` returns, whatever special
characters (such as "<" or "&") they contain. -/
theorem claim5_renderer_verbatim (preprints : List Record) (subtitle out : String)
    (r : Record) (hr : r ∈ preprints)
    (hout : generate_html preprints subtitle "abstract" = some out) :
    appearsIn r.title out ∧ appearsIn r.authors out ∧ appearsIn r.abstract out := by
  obtain ⟨pre, post, hb⟩ := mem_blocks_decompose hr
  simp only [generate_html, hb] at hout
  injection hout with hout
  subst hout
  obtain ⟨ht, ha, hc⟩ := blockString_fields r r.abstract
  refine ⟨?_, ?_, ?_⟩ <;>
    (apply appearsIn_right; apply appearsIn_left; apply appearsIn_right; apply appearsIn_left)
  exacts [ht, ha, hc]

/-- Witness for C5 at a record whose title, authors and abstract contain
"<" and "&". -/
theorem claim5_renderer_verbatim_witness :
    appearsIn "a<b&c"
        ((generate_html [⟨"a<b&c", "c", "X & <Y>", ⟨2025, 4, 1⟩, "<p>&", "u"⟩] "s"
          "abstract").getD "") ∧
      appearsIn "X & <Y>"
        ((generate_html [⟨"a<b&c", "c", "X & <Y>", ⟨2025, 4, 1⟩, "<p>&", "u"⟩] "s"
          "abstract").getD "") ∧
      appearsIn "<p>&"
        ((generate_html [⟨"a<b&c", "c", "X & <Y>", ⟨2025, 4, 1⟩, "<p>&", "u"⟩] "s"
          "abstract").getD "") :=
  claim5_renderer_verbatim
    [⟨"a<b&c", "c", "X & <Y>", ⟨2025, 4, 1⟩, "<p>&", "u"⟩] "s"
    ((generate_html [⟨"a<b&c", "c", "X & <Y>", ⟨2025, 4, 1⟩, "<p>&", "u"⟩] "s"
      "abstract").getD "")
    ⟨"a<b&c", "c", "X & <Y>", ⟨2025, 4, 1⟩, "<p>&", "u"⟩
    (by decide) rfl

/-- Claim C6: fetcher normalization: every output record's title is the
entry's title with leading and trailing whitespace removed and its authors
field is the entry's author names joined by ", "; the abstract is
whitespace-trimmed by the bioRxiv fetcher and taken as-is by the arXiv
fetcher. -/
theorem claim6_normalization (feedOf : String → List Entry)
    (catA catB ds : String) (td : Date) (pA pB : List Record)
    (hd : parseDate ds = some td)
    (hA : (fetch_arxiv_preprints feedOf catA ds).2 = some pA)
    (hB : (fetch_biorxiv_preprints feedOf catB ds).2 = some pB) :
    (∀ r ∈ pA, ∃ e ∈ feedOf (arxivBaseUrl ++ catA),
        r.title = pyStrip e.title ∧ r.authors = pyJoin ", " e.authors ∧
          r.abstract = e.summary) ∧
      (∀ r ∈ pB, ∃ e ∈ feedOf (biorxivBaseUrl ++ catB),
        r.title = pyStrip e.title ∧ r.authors = pyJoin ", " e.authors ∧
          r.abstract = pyStrip e.summary) := by
  rw [fetch_arxiv_snd hd] at hA
  rw [fetch_biorxiv_snd hd] at hB
  constructor
  · intro r hr
    rw [arxivPapers_eq hA] at hr
    obtain ⟨e, he, hk⟩ := List.mem_filterMap.mp hr
    obtain ⟨_, h1, h2, h3, _⟩ := keepArxiv_fields hk
    exact ⟨e, he, h1, h2, h3⟩
  · intro r hr
    rw [biorxivPapers_eq hB] at hr
    obtain ⟨e, he, hk⟩ := List.mem_filterMap.mp hr
    obtain ⟨_, h1, h2, h3, _⟩ := keepBiorxiv_fields hk
    exact ⟨e, he, h1, h2, h3⟩

/-- Witness for C6 on the concrete feed environment `wFeed`, whose entries
carry padded titles and abstracts. -/
theorem claim6_normalization_witness :
    (∀ r ∈ [(⟨"A", "a", "N", ⟨2025, 4, 1⟩, "s", "u"⟩ : Record)],
        ∃ e ∈ wFeed (arxivBaseUrl ++ "a"),
          r.title = pyStrip e.title ∧ r.authors = pyJoin ", " e.authors ∧
            r.abstract = e.summary) ∧
      (∀ r ∈ [(⟨"B", "b", "M", ⟨2025, 4, 1⟩, "t", "v"⟩ : Record)],
        ∃ e ∈ wFeed (biorxivBaseUrl ++ "b"),
          r.title = pyStrip e.title ∧ r.authors = pyJoin ", " e.authors ∧
            r.abstract = pyStrip e.summary) :=
  claim6_normalization wFeed "a" "b" "2025-04-01" ⟨2025, 4, 1⟩
    [⟨"A", "a", "N", ⟨2025, 4, 1⟩, "s", "u"⟩]
    [⟨"B", "b", "M", ⟨2025, 4, 1⟩, "t", "v"⟩]
    (by decide) (by decide) (by decide)

/-- Claim C7: per-source date parsing: the arXiv fetcher splits the
timestamp at the time-of-day separator "T" and parses the part before it
as a YYYY-MM-DD date (a bare date is parsed whole), while the bioRxiv
fetcher parses the entire timestamp with no splitting, so a timestamp with
a "T" suffix fails to parse there. -/
theorem claim7_per_source_parsing (d rest : List Char) (u : String)
    (hd : 'T' ∉ d) :
    entryDateArxiv ⟨d ++ 'T' :: rest⟩ = parseYMDChars d ∧
      entryDateArxiv ⟨d⟩ = parseYMDChars d ∧
      entryDateBiorxiv u = parseYMDChars u.data ∧
      entryDateBiorxiv ⟨d ++ 'T' :: rest⟩ = none := by
  refine ⟨?_, ?_, rfl, ?_⟩
  · show parseYMDChars ((splitOnChar 'T' (d ++ 'T' :: rest)).headD []) = parseYMDChars d
    rw [splitOnChar_append 'T' d rest hd]
    rfl
  · show parseYMDChars ((splitOnChar 'T' d).headD []) = parseYMDChars d
    rw [splitOnChar_no_sep 'T' d hd]
    rfl
  · show parseYMDChars (d ++ 'T' :: rest) = none
    exact parseYMDChars_of_mem_T (by simp)

/-- Witness for C7 at the timestamp 2025-04-01 with and without a
time-of-day suffix. -/
theorem claim7_per_source_parsing_witness :
    ('T' ∉ "2025-04-01".data) ∧
      (entryDateArxiv ⟨"2025-04-01".data ++ 'T' :: "00:11:22".data⟩ =
          parseYMDChars "2025-04-01".data ∧
        entryDateArxiv ⟨"2025-04-01".data⟩ = parseYMDChars "2025-04-01".data ∧
        entryDateBiorxiv "2025-04-01" = parseYMDChars "2025-04-01".data ∧
        entryDateBiorxiv ⟨"2025-04-01".data ++ 'T' :: "00:11:22".data⟩ = none) :=
  ⟨by decide,
    claim7_per_source_parsing "2025-04-01".data "00:11:22".data "2025-04-01" (by decide)⟩

/-- Claim C8: with an empty source-identifier list, `main` skips the
corresponding fetcher entirely: with both lists empty the fetch phase
issues no request and yields no records, and with exactly one list empty
only the other source's single request and records occur. -/
theorem claim8_empty_sources (feedOf : String → List Entry)
    (categories subjects : List String) (ds : String) :
    fetchPhase feedOf [] [] ds = ([], some []) ∧
      fetchPhase feedOf [] subjects ds =
        (if subjects.isEmpty then ([], some [])
         else fetch_biorxiv_preprints feedOf (pyJoin "+" subjects) ds) ∧
      fetchPhase feedOf categories [] ds =
        (if categories.isEmpty then ([], some [])
         else fetch_arxiv_preprints feedOf (pyJoin "+" categories) ds) := by
  refine ⟨rfl, ?_, ?_⟩
  · unfold fetchPhase
    by_cases hs : subjects.isEmpty
    · rw [if_pos hs]
      rfl
    · rw [if_neg hs]
      rcases hb : fetch_biorxiv_preprints feedOf (pyJoin "+" subjects) ds with ⟨reqsB, oB⟩
      cases oB <;> simp
  · unfold fetchPhase
    by_cases hc : categories.isEmpty
    · rw [if_pos hc]
      rfl
    · rw [if_neg hc]
      rcases ha : fetch_arxiv_preprints feedOf (pyJoin "+" categories) ds with ⟨reqsA, oA⟩
      cases oA <;> simp
